import Mathlib

/-!
Verification of the element-discovery and hint-selection core of a
keyboard-driven UI navigator ("hint mode" tool).  The Rust sources are
shallowly embedded: strings become `String` or `List Char`, machine
integers become `Int`/`Nat` (only comparisons matter, no overflow is
reachable), fallible queries become `Option`, and the accessibility bus
is modelled as an explicit world function from node references to
query answers.
-/

/-! ## Roles (src/atspi.rs)

The atspi crate's `Role` enum is external; we model the constructors the
program matches on, plus a few representative others so that the
predicates' negative cases are non-vacuous. -/

inductive Role where
  | PushButton | ToggleButton | RadioButton | CheckBox | MenuItem | Link
  | Entry | PasswordText | ComboBox | PageTab | ListItem | TreeItem
  | Icon | SpinButton | Slider | TableCell
  | ScrollPane | Viewport | Panel | Filler | DocumentFrame | DocumentWeb
  | Application | Frame | ScrollBar
  | Terminal
  | Label | Heading | Image | Text | Unknown
deriving DecidableEq

/-- `format!("\x7b:?\x7d", role)` on the Rust side: the debug name of a role. -/
def roleStr (r : Role) : String :=
  match r with
  | .PushButton => "PushButton"
  | .ToggleButton => "ToggleButton"
  | .RadioButton => "RadioButton"
  | .CheckBox => "CheckBox"
  | .MenuItem => "MenuItem"
  | .Link => "Link"
  | .Entry => "Entry"
  | .PasswordText => "PasswordText"
  | .ComboBox => "ComboBox"
  | .PageTab => "PageTab"
  | .ListItem => "ListItem"
  | .TreeItem => "TreeItem"
  | .Icon => "Icon"
  | .SpinButton => "SpinButton"
  | .Slider => "Slider"
  | .TableCell => "TableCell"
  | .ScrollPane => "ScrollPane"
  | .Viewport => "Viewport"
  | .Panel => "Panel"
  | .Filler => "Filler"
  | .DocumentFrame => "DocumentFrame"
  | .DocumentWeb => "DocumentWeb"
  | .Application => "Application"
  | .Frame => "Frame"
  | .ScrollBar => "ScrollBar"
  | .Terminal => "Terminal"
  | .Label => "Label"
  | .Heading => "Heading"
  | .Image => "Image"
  | .Text => "Text"
  | .Unknown => "Unknown"

/-- `is_actionable_role` from src/atspi.rs. -/
def is_actionable_role (role : Role) : Bool :=
  match role with
  | .PushButton | .ToggleButton | .RadioButton | .CheckBox | .MenuItem
  | .Link | .Entry | .PasswordText | .ComboBox | .PageTab | .ListItem
  | .TreeItem | .Icon | .SpinButton | .Slider | .TableCell => true
  | _ => false

/-- `is_scrollable_role` from src/atspi.rs. -/
def is_scrollable_role (role : Role) : Bool :=
  match role with
  | .ScrollPane | .Viewport | .Panel | .Filler | .DocumentFrame
  | .DocumentWeb | .Application | .Frame | .ScrollBar => true
  | _ => false

/-- `is_text_input_role` from src/atspi.rs. -/
def is_text_input_role (role : Role) : Bool :=
  match role with
  | .Entry | .PasswordText | .SpinButton | .ComboBox | .Terminal => true
  | _ => false

/-- The scrollable-role set exactly as the spec words it (scroll panes,
viewports, panels, document frames/web views, applications, frames,
scrollbars) — written from the spec sentence, for comparison with the
source predicate. -/
def spec_scrollable_role (role : Role) : Bool :=
  match role with
  | .ScrollPane | .Viewport | .Panel | .DocumentFrame
  | .DocumentWeb | .Application | .Frame | .ScrollBar => true
  | _ => false

/-! ## Elements (src/atspi.rs, src/hints.rs) -/

/-- `ClickableElement` from src/atspi.rs; `i32` fields become `Int`. -/
structure ClickableElement where
  name : String
  role : String
  x : Int
  y : Int
  width : Int
  height : Int
deriving DecidableEq

/-- `ClickableElement::center`. -/
def ClickableElement.center (e : ClickableElement) : Int × Int :=
  (e.x + e.width / 2, e.y + e.height / 2)

/-- `HintedElement` from src/hints.rs; the hint string is a `List Char`. -/
structure HintedElement where
  hint : List Char
  element : ClickableElement
deriving DecidableEq

/-- `DEFAULT_HINT_CHARS` from src/hints.rs. -/
def DEFAULT_HINT_CHARS : List Char :=
  ['a', 's', 'd', 'f', 'g', 'h', 'j', 'k', 'l', 'q', 'w', 'e', 'r', 't',
   'y', 'u', 'i', 'o', 'p', 'z', 'x', 'c', 'v', 'b', 'n', 'm']

/-! ## Hint generation (src/hints.rs)

`generate_hints` builds labels in three passes; each Rust `for` loop with
its `hints.len() >= count` break check becomes one recursive function
that stops appending once the count is reached. -/

/-- First pass of `generate_hints`: single character hints. -/
def pass1 (count : Nat) (cs : List Char) (hints : List (List Char)) :
    List (List Char) :=
  match cs with
  | [] => hints
  | c :: rest =>
      if count ≤ hints.length then hints
      else pass1 count rest (hints ++ [[c]])

/-- Inner loop of the second pass: two character hints with fixed first
character. -/
def pass2Inner (count : Nat) (c1 : Char) (cs : List Char)
    (hints : List (List Char)) : List (List Char) :=
  match cs with
  | [] => hints
  | c2 :: rest =>
      if count ≤ hints.length then hints
      else pass2Inner count c1 rest (hints ++ [[c1, c2]])

/-- Outer loop of the second pass of `generate_hints`. -/
def pass2 (count : Nat) (cs all : List Char) (hints : List (List Char)) :
    List (List Char) :=
  match cs with
  | [] => hints
  | c1 :: rest => pass2 count rest all (pass2Inner count c1 all hints)

/-- Innermost loop of the third pass: three character hints with fixed
first two characters. -/
def pass3Inner2 (count : Nat) (c1 c2 : Char) (cs : List Char)
    (hints : List (List Char)) : List (List Char) :=
  match cs with
  | [] => hints
  | c3 :: rest =>
      if count ≤ hints.length then hints
      else pass3Inner2 count c1 c2 rest (hints ++ [[c1, c2, c3]])

/-- Middle loop of the third pass of `generate_hints`. -/
def pass3Inner (count : Nat) (c1 : Char) (cs all : List Char)
    (hints : List (List Char)) : List (List Char) :=
  match cs with
  | [] => hints
  | c2 :: rest => pass3Inner count c1 rest all (pass3Inner2 count c1 c2 all hints)

/-- Outer loop of the third pass of `generate_hints`. -/
def pass3 (count : Nat) (cs all : List Char) (hints : List (List Char)) :
    List (List Char) :=
  match cs with
  | [] => hints
  | c1 :: rest => pass3 count rest all (pass3Inner count c1 all all hints)

/-- `generate_hints` from src/hints.rs. -/
def generate_hints (count : Nat) (chars : List Char) : List (List Char) :=
  if count = 0 then []
  else if chars.isEmpty then []
  else
    let hints := pass1 count chars []
    let hints := if hints.length < count then pass2 count chars chars hints else hints
    let hints := if hints.length < count then pass3 count chars chars hints else hints
    hints

/-- `assign_hints` from src/hints.rs: empty `chars` falls back to
`DEFAULT_HINT_CHARS`, then elements are zipped with generated labels. -/
def assign_hints (elements : List ClickableElement) (chars : List Char) :
    List HintedElement :=
  let chars := if chars.isEmpty then DEFAULT_HINT_CHARS else chars
  let hints := generate_hints elements.length chars
  (elements.zip hints).map fun p => { hint := p.2, element := p.1 }

/-! ## Matching primitives (src/hints.rs) -/

/-- Rust `str::to_lowercase` restricted to the characters the program
feeds it (ASCII). -/
def to_lowercase (s : List Char) : List Char := s.map Char.toLower

/-- `filter_by_prefix` from src/hints.rs: elements whose hint starts with
the lowercased input. -/
def filterByPrefix (elements : List HintedElement) (p : List Char) :
    List HintedElement :=
  let pl := to_lowercase p
  elements.filter fun e => pl.isPrefixOf e.hint

/-- `find_exact_match` from src/hints.rs: exactly one filtered element
whose hint equals the lowercased input. -/
def find_exact_match (elements : List HintedElement) (p : List Char) :
    Option HintedElement :=
  match filterByPrefix elements p with
  | [m] => if m.hint = to_lowercase p then some m else none
  | _ => none

/-- `find_unique_match` from src/hints.rs: exactly one filtered element. -/
def find_unique_match (elements : List HintedElement) (p : List Char) :
    Option HintedElement :=
  match filterByPrefix elements p with
  | [m] => some m
  | _ => none

/-- The full shortest-first label enumeration: all length-1, then all
length-2, then all length-3 combinations in row-major order. -/
def allHints (chars : List Char) : List (List Char) :=
  (chars.map fun c => [c]) ++
    ((chars.flatMap fun c1 => chars.map fun c2 => [c1, c2]) ++
      (chars.flatMap fun c1 => chars.flatMap fun c2 => chars.map fun c3 => [c1, c2, c3]))

/-! ## Selection state machine (src/overlay.rs, src/config.rs) -/

/-- `ActionMode` from src/config.rs. -/
inductive ActionMode where
  | Click | RightClick | MiddleClick | Scroll | Text | Drag
deriving DecidableEq

/-- `BehaviorConfig` from src/config.rs. -/
structure BehaviorConfig where
  auto_select : Bool
  exit_on_click : Bool
  default_mode : ActionMode
  show_element_names : Bool
deriving DecidableEq

/-- `Config` from src/config.rs, restricted to the fields the selection
state machine reads (hint/color/scroll display settings are rendering
concerns outside the modelled core). -/
structure Config where
  behavior : BehaviorConfig
deriving DecidableEq

/-- The modifier snapshot delivered by the input layer; the program reads
only the `shift` and `ctrl` flags. -/
structure Modifiers where
  shift : Bool
  ctrl : Bool
  alt : Bool
  logo : Bool
deriving DecidableEq

/-- `SelectionResult` from src/overlay.rs. -/
inductive SelectionResult where
  | Selected (elem : HintedElement) (action : Option ActionMode)
  | Cancelled
deriving DecidableEq

/-- `OverlayState` from src/overlay.rs, restricted to the fields
`handle_key` reads or writes (the Wayland surface and drawing fields do
not affect selection). -/
structure OverlayState where
  elements : List HintedElement
  input_buffer : List Char
  result : Option SelectionResult
  exit : Bool
  modifiers : Modifiers
  config : Config
deriving DecidableEq

/-- Key symbols: the three specially handled keys plus a generic symbol
key carrying the character it names. -/
inductive Keysym where
  | escape
  | backspace
  | enter
  | sym (c : Char)
deriving DecidableEq

/-- `keysym_to_char` from src/overlay.rs: the letter, digit and semicolon
keys map to their character, everything else to `none`. -/
def keysym_to_char (key : Keysym) : Option Char :=
  match key with
  | .sym c =>
      if (['a', 'b', 'c', 'd', 'e', 'f', 'g', 'h', 'i', 'j', 'k', 'l', 'm',
          'n', 'o', 'p', 'q', 'r', 's', 't', 'u', 'v', 'w', 'x', 'y', 'z',
          '0', '1', '2', '3', '4', '5', '6', '7', '8', '9', ';']).contains c
      then some c else none
  | _ => none

/-- `OverlayState::get_action_from_modifiers`. -/
def get_action_from_modifiers (st : OverlayState) : Option ActionMode :=
  if st.modifiers.shift then some ActionMode.RightClick
  else if st.modifiers.ctrl then some ActionMode.MiddleClick
  else none

/-- `OverlayState::select_element`. -/
def select_element (st : OverlayState) (elem : HintedElement) : OverlayState :=
  { st with
    result := some (SelectionResult.Selected elem (get_action_from_modifiers st))
    exit := true }

/-- `OverlayState::handle_key` from src/overlay.rs. -/
def handle_key (st : OverlayState) (key : Keysym) : OverlayState :=
  match key with
  | .escape => { st with result := some SelectionResult.Cancelled, exit := true }
  | .backspace => { st with input_buffer := st.input_buffer.dropLast }
  | .enter =>
      let selected :=
        (find_exact_match st.elements st.input_buffer).orElse
          fun _ => find_unique_match st.elements st.input_buffer
      match selected with
      | some elem => select_element st elem
      | none => st
  | .sym c =>
      match keysym_to_char (.sym c) with
      | some ch =>
          let st := { st with input_buffer := st.input_buffer ++ [ch] }
          if st.config.behavior.auto_select then
            match find_exact_match st.elements st.input_buffer with
            | some elem => select_element st elem
            | none => st
          else st
      | none => st

/-! ## Element collection (src/atspi.rs)

The accessibility bus is modelled as a world: each node reference
(destination name, object path) answers the proxy-construction, role,
extents, name and children queries; `none` is a failed query.  A cyclic
or self-referential tree is simply a world whose children lists point
back at ancestors. -/

/-- The per-node answers of the external tree-query interface. -/
structure NodeData where
  proxyOk : Bool
  role : Option Role
  extents : Option (Int × Int × Int × Int)
  nodeName : Option String
  children : Option (List (String × String))

/-- The external accessibility tree: the registry's children (the
top-level application references) and every node's query answers. -/
structure A11yWorld where
  rootChildren : Option (List (String × String))
  node : String × String → NodeData

/-- `MAX_DEPTH` from `collect_from_accessible`. -/
def MAX_DEPTH : Nat := 20

/-- `MAX_ELEMENTS` from `collect_from_accessible`. -/
def MAX_ELEMENTS : Nat := 500

mutual

/-- `collect_from_accessible` from src/atspi.rs.  The mutable `elements`
vector and `visited` set are threaded explicitly; the visited set is a
list of keys with `contains` lookup and cons insertion. -/
def collect_from_accessible (w : A11yWorld) (role_filter : Role → Bool)
    (dest path : String) (elements : List ClickableElement)
    (visited : List String) (depth : Nat) :
    List ClickableElement × List String :=
  if _h : MAX_DEPTH < depth ∨ MAX_ELEMENTS ≤ elements.length then
    (elements, visited)
  else
    let key := dest ++ ":" ++ path
    if visited.contains key then (elements, visited)
    else
      let visited := key :: visited
      let nd := w.node (dest, path)
      if !nd.proxyOk then (elements, visited)
      else
        match nd.role with
        | none => (elements, visited)
        | some role =>
            let elements :=
              if role_filter role then
                match nd.extents with
                | some (x, y, wd, ht) =>
                    if 0 < wd ∧ 0 < ht ∧ 0 ≤ x ∧ 0 ≤ y then
                      if wd < 3000 ∧ ht < 2000 then
                        elements ++ [{ name := nd.nodeName.getD ""
                                       role := roleStr role
                                       x := x, y := y, width := wd, height := ht }]
                      else elements
                    else elements
                | none => elements
              else elements
            match nd.children with
            | none => (elements, visited)
            | some kids => collect_children w role_filter kids elements visited (depth + 1)
termination_by ((MAX_DEPTH + 1) - depth, 0)

/-- The `for child_ref in children` loop of `collect_from_accessible`,
threading the element and visited state left to right. -/
def collect_children (w : A11yWorld) (role_filter : Role → Bool)
    (kids : List (String × String)) (elements : List ClickableElement)
    (visited : List String) (depth : Nat) :
    List ClickableElement × List String :=
  match kids with
  | [] => (elements, visited)
  | (cdest, cpath) :: rest =>
      let r := collect_from_accessible w role_filter cdest cpath elements visited depth
      collect_children w role_filter rest r.1 r.2 depth
termination_by ((MAX_DEPTH + 1) - depth, kids.length + 1)

end

/-- `collect_elements` from src/atspi.rs: start from every top-level
application reference at depth 0 with empty state; a failed registry
children query yields the empty result. -/
def collect_elements (w : A11yWorld) (role_filter : Role → Bool) :
    List ClickableElement :=
  match w.rootChildren with
  | none => []
  | some children => (collect_children w role_filter children [] [] 0).1

/-- The geometry invariant every accepted element satisfies
(`w > 0 && h > 0 && x >= 0 && y >= 0` and `w < 3000 && h < 2000`). -/
def GeomOK (e : ClickableElement) : Prop :=
  0 ≤ e.x ∧ 0 ≤ e.y ∧ 0 < e.width ∧ e.width < 3000 ∧
    0 < e.height ∧ e.height < 2000

instance (e : ClickableElement) : Decidable (GeomOK e) := by
  unfold GeomOK; infer_instance

/-- Relation between the state at entry to a traversal step and the state
it leaves behind: elements only grow at the tail, the visited set only
grows at the head, distinctness of visited keys is preserved, the element
count never exceeds `max` of its entry value and the cap, and every new
element satisfies the geometry invariant. -/
def StateInv (els els' : List ClickableElement) (vis vis' : List String) : Prop :=
  els <+: els' ∧
  vis <:+ vis' ∧
  (vis.Nodup → vis'.Nodup) ∧
  els'.length ≤ max els.length MAX_ELEMENTS ∧
  (∀ e ∈ els', e ∈ els ∨ GeomOK e)

/-! ## Concrete test fixtures

A small cyclic world: the root node is its own descendant (its children
list contains the root itself), its bounding box is implausibly wide
(a background surface), and it has one well-formed scroll-pane child
that also points back at the root. -/

/-- A world with a cycle: node `a:/r` reaches itself via its children. -/
def cycWorld : A11yWorld where
  rootChildren := some [("a", "/r")]
  node := fun ref =>
    if ref = ("a", "/r") then
      { proxyOk := true, role := some Role.Frame,
        extents := some (0, 0, 4000, 100), nodeName := some "root",
        children := some [("a", "/c"), ("a", "/r")] }
    else if ref = ("a", "/c") then
      { proxyOk := true, role := some Role.ScrollPane,
        extents := some (1, 2, 10, 20), nodeName := some "kid",
        children := some [("a", "/r")] }
    else
      { proxyOk := false, role := none, extents := none, nodeName := none,
        children := none }

/-- A concrete element for the hint fixtures. -/
def elA : ClickableElement :=
  { name := "btn1", role := "PushButton", x := 0, y := 0, width := 10, height := 10 }

/-- `elA` labelled with the hint `a`. -/
def hintA : HintedElement := { hint := ['a'], element := elA }

/-- An overlay session with no candidate elements and an empty buffer. -/
def stEmpty : OverlayState where
  elements := []
  input_buffer := []
  result := none
  exit := false
  modifiers := { shift := false, ctrl := false, alt := false, logo := false }
  config := { behavior := { auto_select := true, exit_on_click := true,
                            default_mode := ActionMode.Click,
                            show_element_names := false } }

/-- An overlay session whose buffer exactly matches the single hint. -/
def stA : OverlayState :=
  { stEmpty with elements := [hintA], input_buffer := ['a'] }

/-! ## Characterization of hint generation -/

theorem pass1_eq (count : Nat) (cs : List Char) (hints : List (List Char)) :
    pass1 count cs hints = hints ++ (cs.map fun c => [c]).take (count - hints.length) := by
  induction cs generalizing hints with
  | nil => simp [pass1]
  | cons c rest ih =>
      rw [pass1]
      by_cases h : count ≤ hints.length
      · simp [h, Nat.sub_eq_zero_of_le h]
      · simp only [if_neg h]
        rw [ih]
        have h2 : count - hints.length = (count - (hints.length + 1)) + 1 := by omega
        simp [h2, List.take_succ_cons]

theorem pass2Inner_eq (count : Nat) (c1 : Char) (cs : List Char) (hints : List (List Char)) :
    pass2Inner count c1 cs hints =
      hints ++ (cs.map fun c2 => [c1, c2]).take (count - hints.length) := by
  induction cs generalizing hints with
  | nil => simp [pass2Inner]
  | cons c rest ih =>
      rw [pass2Inner]
      by_cases h : count ≤ hints.length
      · simp [h, Nat.sub_eq_zero_of_le h]
      · simp only [if_neg h]
        rw [ih]
        have h2 : count - hints.length = (count - (hints.length + 1)) + 1 := by omega
        simp [h2, List.take_succ_cons]

theorem append_take_step (count : Nat) (hints A B : List (List Char)) :
    (hints ++ A.take (count - hints.length)) ++
        B.take (count - (hints ++ A.take (count - hints.length)).length) =
      hints ++ (A ++ B).take (count - hints.length) := by
  have h1 : count - (hints ++ A.take (count - hints.length)).length =
      (count - hints.length) - A.length := by
    simp [List.length_append, List.length_take]; omega
  rw [h1, List.take_append_eq_append_take, List.append_assoc]

theorem pass2_eq (count : Nat) (cs all : List Char) (hints : List (List Char)) :
    pass2 count cs all hints =
      hints ++ (cs.flatMap fun c1 => all.map fun c2 => [c1, c2]).take (count - hints.length) := by
  induction cs generalizing hints with
  | nil => simp [pass2]
  | cons c rest ih =>
      rw [pass2, ih, pass2Inner_eq]
      rw [List.flatMap_cons, ← append_take_step]

theorem pass3Inner2_eq (count : Nat) (c1 c2 : Char) (cs : List Char)
    (hints : List (List Char)) :
    pass3Inner2 count c1 c2 cs hints =
      hints ++ (cs.map fun c3 => [c1, c2, c3]).take (count - hints.length) := by
  induction cs generalizing hints with
  | nil => simp [pass3Inner2]
  | cons c rest ih =>
      rw [pass3Inner2]
      by_cases h : count ≤ hints.length
      · simp [h, Nat.sub_eq_zero_of_le h]
      · simp only [if_neg h]
        rw [ih]
        have h2 : count - hints.length = (count - (hints.length + 1)) + 1 := by omega
        simp [h2, List.take_succ_cons]

theorem pass3Inner_eq (count : Nat) (c1 : Char) (cs all : List Char)
    (hints : List (List Char)) :
    pass3Inner count c1 cs all hints =
      hints ++ (cs.flatMap fun c2 => all.map fun c3 => [c1, c2, c3]).take (count - hints.length) := by
  induction cs generalizing hints with
  | nil => simp [pass3Inner]
  | cons c rest ih =>
      rw [pass3Inner, ih, pass3Inner2_eq]
      rw [List.flatMap_cons, ← append_take_step]

theorem pass3_eq (count : Nat) (cs all : List Char) (hints : List (List Char)) :
    pass3 count cs all hints =
      hints ++ (cs.flatMap fun c1 => all.flatMap fun c2 => all.map fun c3 => [c1, c2, c3]).take
        (count - hints.length) := by
  induction cs generalizing hints with
  | nil => simp [pass3]
  | cons c rest ih =>
      rw [pass3, ih, pass3Inner_eq]
      rw [List.flatMap_cons, ← append_take_step]


theorem step_if (count : Nat) (hints B : List (List Char))
    (f : List (List Char) → List (List Char))
    (hf : ∀ h, f h = h ++ B.take (count - h.length)) :
    (if hints.length < count then f hints else hints) =
      hints ++ B.take (count - hints.length) := by
  by_cases h : hints.length < count
  · rw [if_pos h, hf]
  · rw [if_neg h]
    have h2 : count - hints.length = 0 := by omega
    simp [h2]

theorem generate_hints_eq_take (count : Nat) (chars : List Char) :
    generate_hints count chars = (allHints chars).take count := by
  by_cases h0 : count = 0
  · simp [generate_hints, h0]
  by_cases hch : chars.isEmpty
  · have hnil : chars = [] := by simpa [List.isEmpty_iff] using hch
    subst hnil
    simp [generate_hints, h0, allHints]
  have e1 : pass1 count chars [] = (chars.map fun c => [c]).take count := by
    rw [pass1_eq]; simp
  have e12 := append_take_step count [] (chars.map fun c => [c])
    (chars.flatMap fun c1 => chars.map fun c2 => [c1, c2])
  simp only [List.nil_append, List.length_nil, Nat.sub_zero] at e12
  have e123 := append_take_step count []
    ((chars.map fun c => [c]) ++ (chars.flatMap fun c1 => chars.map fun c2 => [c1, c2]))
    (chars.flatMap fun c1 => chars.flatMap fun c2 => chars.map fun c3 => [c1, c2, c3])
  simp only [List.nil_append, List.length_nil, Nat.sub_zero] at e123
  rw [generate_hints, if_neg h0, if_neg hch]
  simp only [e1]
  rw [step_if count _ _ _ (fun h => pass2_eq count chars chars h), e12]
  rw [step_if count _ _ _ (fun h => pass3_eq count chars chars h), e123]
  rw [allHints, List.append_assoc]

theorem sum_map_const {α : Type} (l : List α) (n : Nat) :
    (l.map fun _ => n).sum = l.length * n := by
  induction l with
  | nil => simp
  | cons a t ih => simp [ih, Nat.succ_mul]; ring

theorem length_allHints (chars : List Char) :
    (allHints chars).length = chars.length + chars.length ^ 2 + chars.length ^ 3 := by
  simp [allHints, List.length_flatMap, Function.comp_def, sum_map_const]
  ring

theorem nodup_allHints (chars : List Char) (h : chars.Nodup) :
    (allHints chars).Nodup := by
  have hinj1 : Function.Injective fun c : Char => [c] := by
    intro a b hab; simpa using hab
  have hS : (chars.map fun c => [c]).Nodup := h.map hinj1
  have hP2 : (chars.flatMap fun c1 => chars.map fun c2 => [c1, c2]).Nodup := by
    rw [List.nodup_flatMap]
    constructor
    · intro c1 _
      exact h.map (by intro a b hab; simpa using hab)
    · refine h.imp ?_
      intro a b hab x hxa hxb
      simp only [List.mem_map] at hxa hxb
      obtain ⟨c2, _, rfl⟩ := hxa
      obtain ⟨c2', _, heq⟩ := hxb
      simp only [List.cons.injEq] at heq
      exact hab heq.1.symm
  have hP3 : (chars.flatMap fun c1 =>
      chars.flatMap fun c2 => chars.map fun c3 => [c1, c2, c3]).Nodup := by
    rw [List.nodup_flatMap]
    constructor
    · intro c1 _
      rw [List.nodup_flatMap]
      constructor
      · intro c2 _
        exact h.map (by intro a b hab; simpa using hab)
      · refine h.imp ?_
        intro a b hab x hxa hxb
        simp only [List.mem_map] at hxa hxb
        obtain ⟨c3, _, rfl⟩ := hxa
        obtain ⟨c3', _, heq⟩ := hxb
        simp only [List.cons.injEq] at heq
        exact hab heq.2.1.symm
    · refine h.imp ?_
      intro a b hab x hxa hxb
      simp only [List.mem_flatMap, List.mem_map] at hxa hxb
      obtain ⟨c2, _, c3, _, rfl⟩ := hxa
      obtain ⟨c2', _, c3', _, heq⟩ := hxb
      simp only [List.cons.injEq] at heq
      exact hab heq.1.symm
  have lenS : ∀ x ∈ chars.map fun c : Char => [c], x.length = 1 := by
    intro x hx
    simp only [List.mem_map] at hx
    obtain ⟨c, _, rfl⟩ := hx
    rfl
  have lenP2 : ∀ x ∈ chars.flatMap fun c1 => chars.map fun c2 => [c1, c2],
      x.length = 2 := by
    intro x hx
    simp only [List.mem_flatMap, List.mem_map] at hx
    obtain ⟨c1, _, c2, _, rfl⟩ := hx
    rfl
  have lenP3 : ∀ x ∈ chars.flatMap fun c1 =>
      chars.flatMap fun c2 => chars.map fun c3 => [c1, c2, c3], x.length = 3 := by
    intro x hx
    simp only [List.mem_flatMap, List.mem_map] at hx
    obtain ⟨c1, _, c2, _, c3, _, rfl⟩ := hx
    rfl
  rw [allHints, List.nodup_append]
  refine ⟨hS, ?_, ?_⟩
  · rw [List.nodup_append]
    refine ⟨hP2, hP3, ?_⟩
    intro x hx2 hx3
    have := lenP2 x hx2
    have := lenP3 x hx3
    omega
  · intro x hxS hx23
    have h1 := lenS x hxS
    rcases List.mem_append.mp hx23 with hx | hx
    · have := lenP2 x hx; omega
    · have := lenP3 x hx; omega

theorem generate_hints_length (count : Nat) (chars : List Char) :
    (generate_hints count chars).length =
      min count (chars.length + chars.length ^ 2 + chars.length ^ 3) := by
  rw [generate_hints_eq_take, List.length_take, length_allHints]

theorem generate_hints_nodup (count : Nat) (chars : List Char) (h : chars.Nodup) :
    (generate_hints count chars).Nodup := by
  rw [generate_hints_eq_take]
  exact List.Nodup.sublist (List.take_sublist _ _) (nodup_allHints chars h)

theorem find_exact_match_iff (els : List HintedElement) (q : List Char)
    (m : HintedElement) :
    find_exact_match els q = some m ↔
      filterByPrefix els q = [m] ∧ m.hint = to_lowercase q := by
  unfold find_exact_match
  rcases hf : filterByPrefix els q with _ | ⟨a, _ | ⟨b, t⟩⟩ <;> simp [hf]
  by_cases he : a.hint = to_lowercase q <;> simp [he] <;> rintro rfl <;> exact he

theorem find_unique_match_iff (els : List HintedElement) (q : List Char)
    (m : HintedElement) :
    find_unique_match els q = some m ↔ filterByPrefix els q = [m] := by
  unfold find_unique_match
  rcases hf : filterByPrefix els q with _ | ⟨a, _ | ⟨b, t⟩⟩ <;> simp [hf]

theorem generate_hints_take_singletons (count : Nat) (chars : List Char)
    (hlt : chars.length < count) :
    (generate_hints count chars).take chars.length = chars.map fun c => [c] := by
  rw [generate_hints_eq_take, List.take_take]
  have hmin : min chars.length count = chars.length := by omega
  rw [hmin, allHints, List.take_append_eq_append_take]
  have hlen : (chars.map fun c => [c]).length = chars.length := by simp
  rw [List.take_of_length_le (le_of_eq hlen)]
  simp [hlen]

theorem generate_hints_at_k (count : Nat) (c0 c1 : Char) (rest : List Char)
    (h : (c0 :: c1 :: rest).length < count) :
    (generate_hints count (c0 :: c1 :: rest))[(c0 :: c1 :: rest).length]? =
      some [c0, c0] := by
  rw [generate_hints_eq_take, List.getElem?_take, if_pos h, allHints]
  rw [List.getElem?_append_right (by simp)]
  simp

theorem zip_getElem? {α β : Type} (l : List α) (l' : List β) (i : Nat) :
    (l.zip l')[i]? = (l[i]?).bind fun a => (l'[i]?).map fun b => (a, b) := by
  induction l generalizing l' i with
  | nil => simp
  | cons a t ih =>
      cases l' with
      | nil => simp
      | cons b t' =>
          cases i with
          | zero => simp
          | succ n => simpa using ih t' n

theorem stateInv_rfl (els : List ClickableElement) (vis : List String) :
    StateInv els els vis vis :=
  ⟨List.prefix_rfl, List.suffix_rfl, fun h => h, le_max_left _ _,
    fun _ he => Or.inl he⟩

theorem stateInv_trans {a b c : List ClickableElement} {u v z : List String}
    (h1 : StateInv a b u v) (h2 : StateInv b c v z) : StateInv a c u z := by
  obtain ⟨p1, s1, n1, l1, m1⟩ := h1
  obtain ⟨p2, s2, n2, l2, m2⟩ := h2
  refine ⟨p1.trans p2, s1.trans s2, fun h => n2 (n1 h), ?_, ?_⟩
  · calc c.length ≤ max b.length MAX_ELEMENTS := l2
      _ ≤ max (max a.length MAX_ELEMENTS) MAX_ELEMENTS := by
          exact max_le_max l1 (le_refl _)
      _ = max a.length MAX_ELEMENTS := by rw [max_assoc, max_self]
  · intro e he
    rcases m2 e he with h | h
    · exact m1 e h
    · exact Or.inr h

theorem stateInv_push (els els' : List ClickableElement) (vis : List String)
    (key : String) (hk : key ∉ vis)
    (h : els' = els ∨ ∃ e, GeomOK e ∧ els' = els ++ [e])
    (hlen : els.length < MAX_ELEMENTS) :
    StateInv els els' vis (key :: vis) := by
  refine ⟨?_, ?_, ?_, ?_, ?_⟩
  · rcases h with rfl | ⟨e, _, rfl⟩
    · exact List.prefix_rfl
    · exact ⟨[e], rfl⟩
  · exact ⟨[key], rfl⟩
  · intro hnd
    exact List.nodup_cons.mpr ⟨hk, hnd⟩
  · rcases h with rfl | ⟨e, _, rfl⟩
    · exact le_max_left _ _
    · simp only [List.length_append, List.length_singleton]
      omega
  · intro e he
    rcases h with rfl | ⟨e', hg, rfl⟩
    · exact Or.inl he
    · rcases List.mem_append.mp he with h | h
      · exact Or.inl h
      · simp only [List.mem_singleton] at h
        subst h
        exact Or.inr hg

theorem collect_inv (n : Nat) :
    (∀ (w : A11yWorld) (f : Role → Bool) (dest path : String)
      (els : List ClickableElement) (vis : List String) (d : Nat),
      MAX_DEPTH + 1 - d ≤ n →
      StateInv els (collect_from_accessible w f dest path els vis d).1
        vis (collect_from_accessible w f dest path els vis d).2) ∧
    (∀ (w : A11yWorld) (f : Role → Bool) (kids : List (String × String))
      (els : List ClickableElement) (vis : List String) (d : Nat),
      MAX_DEPTH + 1 - d ≤ n →
      StateInv els (collect_children w f kids els vis d).1
        vis (collect_children w f kids els vis d).2) := by
  induction n with
  | zero =>
      have hP : ∀ (w : A11yWorld) (f : Role → Bool) (dest path : String)
          (els : List ClickableElement) (vis : List String) (d : Nat),
          MAX_DEPTH + 1 - d ≤ 0 →
          StateInv els (collect_from_accessible w f dest path els vis d).1
            vis (collect_from_accessible w f dest path els vis d).2 := by
        intro w f dest path els vis d hd
        have hlt : MAX_DEPTH < d := by omega
        rw [collect_from_accessible.eq_def, dif_pos (Or.inl hlt)]
        exact stateInv_rfl els vis
      refine ⟨hP, ?_⟩
      intro w f kids els vis d hd
      induction kids generalizing els vis with
      | nil =>
          rw [collect_children.eq_def]
          exact stateInv_rfl els vis
      | cons hd' tl ih =>
          obtain ⟨cdest, cpath⟩ := hd'
          rw [collect_children.eq_def]
          exact stateInv_trans (hP w f cdest cpath els vis d hd) (ih _ _)
  | succ n ihn =>
      obtain ⟨ihP, ihQ⟩ := ihn
      have hP : ∀ (w : A11yWorld) (f : Role → Bool) (dest path : String)
          (els : List ClickableElement) (vis : List String) (d : Nat),
          MAX_DEPTH + 1 - d ≤ n + 1 →
          StateInv els (collect_from_accessible w f dest path els vis d).1
            vis (collect_from_accessible w f dest path els vis d).2 := by
        intro w f dest path els vis d hd
        rw [collect_from_accessible.eq_def]
        by_cases hg : MAX_DEPTH < d ∨ MAX_ELEMENTS ≤ els.length
        · rw [dif_pos hg]
          exact stateInv_rfl els vis
        · rw [dif_neg hg]
          have hlen : els.length < MAX_ELEMENTS := by omega
          have hdn : MAX_DEPTH + 1 - (d + 1) ≤ n := by omega
          by_cases hc : vis.contains (dest ++ ":" ++ path) = true
          · simp only [hc, if_true]
            exact stateInv_rfl els vis
          · simp only [hc, if_false]
            have hk : (dest ++ ":" ++ path) ∉ vis := by
              intro hmem
              exact hc (List.elem_iff.mpr hmem)
            cases hpx : (w.node (dest, path)).proxyOk with
            | false =>
                simp only [hpx, Bool.not_false, if_true]
                exact stateInv_push els els vis _ hk (Or.inl rfl) hlen
            | true =>
                simp only [hpx, Bool.not_true, if_false]
                cases hrole : (w.node (dest, path)).role with
                | none =>
                    simp only [hrole]
                    exact stateInv_push els els vis _ hk (Or.inl rfl) hlen
                | some role =>
                    simp only [hrole]
                    have hemit : ∀ els2 : List ClickableElement,
                        (els2 = (if f role = true then
                          match (w.node (dest, path)).extents with
                          | some (x, y, wd, ht) =>
                              if 0 < wd ∧ 0 < ht ∧ 0 ≤ x ∧ 0 ≤ y then
                                if wd < 3000 ∧ ht < 2000 then
                                  els ++ [{ name := (w.node (dest, path)).nodeName.getD ""
                                            role := roleStr role
                                            x := x, y := y, width := wd, height := ht }]
                                else els
                              else els
                          | none => els
                        else els)) →
                        els2 = els ∨ ∃ e, GeomOK e ∧ els2 = els ++ [e] := by
                      intro els2 hels2
                      subst hels2
                      split
                      · split
                        · rename_i x y wd ht
                          split
                          · split
                            · rename_i h1 h2
                              exact Or.inr ⟨_, ⟨h1.2.2.1, h1.2.2.2, h1.1, h2.1,
                                h1.2.1, h2.2⟩, rfl⟩
                            · exact Or.inl rfl
                          · exact Or.inl rfl
                        · exact Or.inl rfl
                      · exact Or.inl rfl
                    cases hkids : (w.node (dest, path)).children with
                    | none =>
                        simp only [hkids]
                        exact stateInv_push els _ vis _ hk (hemit _ rfl) hlen
                    | some kids =>
                        simp only [hkids]
                        refine stateInv_trans
                          (stateInv_push els _ vis _ hk (hemit _ rfl) hlen)
                          (ihQ w f kids _ _ (d + 1) hdn)
      refine ⟨hP, ?_⟩
      intro w f kids els vis d hd
      induction kids generalizing els vis with
      | nil =>
          rw [collect_children.eq_def]
          exact stateInv_rfl els vis
      | cons hd' tl ih =>
          obtain ⟨cdest, cpath⟩ := hd'
          rw [collect_children.eq_def]
          exact stateInv_trans (hP w f cdest cpath els vis d hd) (ih _ _)

theorem cfa_skip (w : A11yWorld) (f : Role → Bool) (dest path : String)
    (els : List ClickableElement) (vis : List String) (d : Nat)
    (hmem : (dest ++ ":" ++ path) ∈ vis) :
    collect_from_accessible w f dest path els vis d = (els, vis) := by
  rw [collect_from_accessible.eq_def]
  by_cases hg : MAX_DEPTH < d ∨ MAX_ELEMENTS ≤ els.length
  · rw [dif_pos hg]
  · rw [dif_neg hg]
    have hcont : vis.contains (dest ++ ":" ++ path) = true :=
      List.elem_iff.mpr hmem
    simp only [hcont, if_true]

theorem cfa_guard (w : A11yWorld) (f : Role → Bool) (dest path : String)
    (els : List ClickableElement) (vis : List String) (d : Nat)
    (hgd : 20 < d ∨ 500 ≤ els.length) :
    collect_from_accessible w f dest path els vis d = (els, vis) := by
  rw [collect_from_accessible.eq_def,
    dif_pos (show MAX_DEPTH < d ∨ MAX_ELEMENTS ≤ els.length from hgd)]

theorem collect_elements_le (w : A11yWorld) (f : Role → Bool) :
    (collect_elements w f).length ≤ 500 := by
  rw [collect_elements.eq_def]
  cases hrc : w.rootChildren with
  | none => simp
  | some children =>
      have h := ((collect_inv (MAX_DEPTH + 1)).2 w f children [] [] 0
        (by omega)).2.2.2.1
      simpa [MAX_ELEMENTS] using h

theorem collect_elements_geom (w : A11yWorld) (f : Role → Bool) :
    ∀ e ∈ collect_elements w f, GeomOK e := by
  intro e he
  rw [collect_elements.eq_def] at he
  cases hrc : w.rootChildren with
  | none => rw [hrc] at he; simp at he
  | some children =>
      rw [hrc] at he
      have h := ((collect_inv (MAX_DEPTH + 1)).2 w f children [] [] 0
        (by omega)).2.2.2.2
      rcases h e he with h0 | h0
      · simp at h0
      · exact h0

theorem cfa_bad_geometry (w : A11yWorld) (f : Role → Bool) (dest path : String)
    (els : List ClickableElement) (vis : List String) (d : Nat)
    (r : Role) (kids : List (String × String))
    (hgd : ¬(MAX_DEPTH < d ∨ MAX_ELEMENTS ≤ els.length))
    (hk : (dest ++ ":" ++ path) ∉ vis)
    (hpx : (w.node (dest, path)).proxyOk = true)
    (hrole : (w.node (dest, path)).role = some r)
    (hf : f r = true)
    (hx : (w.node (dest, path)).extents = none ∨
      ∃ x y wd ht, (w.node (dest, path)).extents = some (x, y, wd, ht) ∧
        ¬((0 < wd ∧ 0 < ht ∧ 0 ≤ x ∧ 0 ≤ y) ∧ (wd < 3000 ∧ ht < 2000)))
    (hkids : (w.node (dest, path)).children = some kids) :
    collect_from_accessible w f dest path els vis d =
      collect_children w f kids els ((dest ++ ":" ++ path) :: vis) (d + 1) := by
  rw [collect_from_accessible.eq_def, dif_neg hgd]
  have hcont : ¬(vis.contains (dest ++ ":" ++ path) = true) := by
    intro h
    exact hk (List.elem_iff.mp h)
  simp only [hcont, if_false, hpx, Bool.not_true, Bool.false_eq_true, hrole,
    hkids, hf, if_true]
  rcases hx with hnone | ⟨x, y, wd, ht, hsome, hbad⟩
  · simp only [hnone]
  · simp only [hsome]
    by_cases h1 : 0 < wd ∧ 0 < ht ∧ 0 ≤ x ∧ 0 ≤ y
    · have h2 : ¬(wd < 3000 ∧ ht < 2000) := fun h2 => hbad ⟨h1, h2⟩
      simp [h1, h2]
    · simp [h1]

/-- Sanity check: the full traversal of the cyclic world evaluates — the
self-referential root is entered once, its oversized box is rejected, its
well-formed child is emitted, and the back edges to the root are skipped
by the visited set. -/
theorem cycWorld_eval :
    collect_elements cycWorld is_scrollable_role =
      [{ name := "kid", role := "ScrollPane", x := 1, y := 2,
         width := 10, height := 20 }] := by
  simp [collect_elements, cycWorld, collect_children.eq_def,
    collect_from_accessible.eq_def, MAX_DEPTH, MAX_ELEMENTS,
    is_scrollable_role, roleStr]

/-! ## Claims -/

/-- C1: for every accessibility tree — the traversal is a total function of
an arbitrary world, including worlds where a node reaches itself through its
children (it is defined by well-founded recursion on the remaining depth
budget, so it terminates on every input) — one discovery pass processes each
distinct node key (destination plus tree path) at most once: a
duplicate-free visited set stays duplicate-free (each processed key is
inserted exactly at processing time), and a node whose key is already in
the visited set is skipped with the whole state returned untouched, before
any query for it is made. -/
theorem claim_C1 (w : A11yWorld) (f : Role → Bool) (dest path : String)
    (els : List ClickableElement) (vis : List String) (d : Nat)
    (hnd : vis.Nodup) :
    ((collect_from_accessible w f dest path els vis d).2).Nodup ∧
    ((dest ++ ":" ++ path) ∈ vis →
      collect_from_accessible w f dest path els vis d = (els, vis)) :=
  ⟨((collect_inv (MAX_DEPTH + 1)).1 w f dest path els vis d (by omega)).2.2.1 hnd,
   fun hmem => cfa_skip w f dest path els vis d hmem⟩

theorem claim_C1_witness :
    ((collect_from_accessible cycWorld is_scrollable_role "a" "/r" []
        ["a:/r"] 0).2).Nodup ∧
    collect_from_accessible cycWorld is_scrollable_role "a" "/r" [] ["a:/r"] 0 =
      ([], ["a:/r"]) := by
  have h := claim_C1 cycWorld is_scrollable_role "a" "/r" [] ["a:/r"] 0 (by decide)
  exact ⟨h.1, h.2 (by decide)⟩

/-- C2: the collector's result never exceeds 500 elements, and a node at
depth greater than 20, or reached when the result already holds 500
elements, contributes nothing: the state is returned untouched before any
work (visited lookup, proxy construction, role or geometry query) is done
for it. -/
theorem claim_C2 :
    (∀ (w : A11yWorld) (f : Role → Bool),
      (collect_elements w f).length ≤ 500) ∧
    (∀ (w : A11yWorld) (f : Role → Bool) (dest path : String)
      (els : List ClickableElement) (vis : List String) (d : Nat),
      20 < d ∨ 500 ≤ els.length →
      collect_from_accessible w f dest path els vis d = (els, vis)) :=
  ⟨fun w f => collect_elements_le w f,
   fun w f dest path els vis d h => cfa_guard w f dest path els vis d h⟩

theorem claim_C2_witness :
    (collect_elements cycWorld is_scrollable_role).length ≤ 500 ∧
    collect_from_accessible cycWorld is_scrollable_role "a" "/r" [] [] 21 =
      ([], []) :=
  ⟨claim_C2.1 cycWorld is_scrollable_role,
   claim_C2.2 cycWorld is_scrollable_role "a" "/r" [] [] 21 (Or.inl (by decide))⟩

/-- C3: for every count and every alphabet of distinct characters,
`generate_hints` returns exactly `min count (k + k² + k³)` labels
(`k` the alphabet size), pairwise distinct within the batch. -/
theorem claim_C3 (count : Nat) (chars : List Char) (hnd : chars.Nodup) :
    (generate_hints count chars).length =
      min count (chars.length + chars.length ^ 2 + chars.length ^ 3) ∧
    (generate_hints count chars).Nodup :=
  ⟨generate_hints_length count chars, generate_hints_nodup count chars hnd⟩

theorem claim_C3_witness :
    (generate_hints 5 ['h', 'j', 'k', 'l']).length = min 5 (4 + 4 ^ 2 + 4 ^ 3) ∧
    (generate_hints 5 ['h', 'j', 'k', 'l']).Nodup :=
  claim_C3 5 ['h', 'j', 'k', 'l'] (by decide)

/-- C4: in the Active state, Enter evaluates `find_exact_match` first and
`find_unique_match` only if that yields none; a match from either
transitions to the Selected terminal state with that element (buffer
untouched), and if neither matches the state — including the buffer —
is entirely unchanged. -/
theorem claim_C4 (st : OverlayState) (_hactive : st.result = none) :
    (∀ e, find_exact_match st.elements st.input_buffer = some e →
      handle_key st Keysym.enter =
        { st with
          result := some (SelectionResult.Selected e (get_action_from_modifiers st))
          exit := true }) ∧
    (∀ e, find_exact_match st.elements st.input_buffer = none →
      find_unique_match st.elements st.input_buffer = some e →
      handle_key st Keysym.enter =
        { st with
          result := some (SelectionResult.Selected e (get_action_from_modifiers st))
          exit := true }) ∧
    (find_exact_match st.elements st.input_buffer = none →
      find_unique_match st.elements st.input_buffer = none →
      handle_key st Keysym.enter = st) := by
  refine ⟨?_, ?_, ?_⟩
  · intro e he
    simp [handle_key, he, Option.orElse, select_element]
  · intro e he hu
    simp [handle_key, he, hu, Option.orElse, select_element]
  · intro he hu
    simp [handle_key, he, hu, Option.orElse]

theorem claim_C4_witness :
    handle_key stA Keysym.enter =
      { stA with
        result := some (SelectionResult.Selected hintA (get_action_from_modifiers stA))
        exit := true } ∧
    handle_key stEmpty Keysym.enter = stEmpty :=
  ⟨(claim_C4 stA rfl).1 hintA (by decide),
   (claim_C4 stEmpty rfl).2.2 (by decide) (by decide)⟩

/-- C5 counterexample: with one element labelled `a` and the query `A`,
`find_exact_match` returns the element although its label does not equal
the query string — the comparison is against the lowercased query, so the
claimed iff fails as stated. -/
theorem claim_C5_counterexample :
    find_exact_match [hintA] ['A'] = some hintA ∧ hintA.hint ≠ ['A'] :=
  ⟨by decide, by decide⟩

/-- C5 (amended): `find_exact_match` returns a match iff the
prefix-filtered set is exactly that single member and the member's label
equals the lowercased query string; the returned match is that member. -/
theorem claim_C5 (els : List HintedElement) (q : List Char) (m : HintedElement) :
    find_exact_match els q = some m ↔
      filterByPrefix els q = [m] ∧ m.hint = to_lowercase q :=
  find_exact_match_iff els q m

/-- C6: every element the collector emits satisfies the geometric
invariant `0 ≤ x ∧ 0 ≤ y ∧ 0 < width < 3000 ∧ 0 < height < 2000`; a node
whose bounding box violates it (or whose geometry query fails) is not
emitted, but the traversal still continues into its children. -/
theorem claim_C6 :
    (∀ (w : A11yWorld) (f : Role → Bool),
      (collect_elements w f).Forall GeomOK) ∧
    (∀ (w : A11yWorld) (f : Role → Bool) (dest path : String)
      (els : List ClickableElement) (vis : List String) (d : Nat)
      (r : Role) (kids : List (String × String)),
      ¬(MAX_DEPTH < d ∨ MAX_ELEMENTS ≤ els.length) →
      (dest ++ ":" ++ path) ∉ vis →
      (w.node (dest, path)).proxyOk = true →
      (w.node (dest, path)).role = some r →
      f r = true →
      ((w.node (dest, path)).extents = none ∨
        ∃ x y wd ht, (w.node (dest, path)).extents = some (x, y, wd, ht) ∧
          ¬((0 < wd ∧ 0 < ht ∧ 0 ≤ x ∧ 0 ≤ y) ∧ (wd < 3000 ∧ ht < 2000))) →
      (w.node (dest, path)).children = some kids →
      collect_from_accessible w f dest path els vis d =
        collect_children w f kids els ((dest ++ ":" ++ path) :: vis) (d + 1)) := by
  constructor
  · intro w f
    rw [List.forall_iff_forall_mem]
    exact collect_elements_geom w f
  · intro w f dest path els vis d r kids hgd hk hpx hrole hf hx hkids
    exact cfa_bad_geometry w f dest path els vis d r kids hgd hk hpx hrole hf hx hkids

theorem claim_C6_witness :
    (collect_elements cycWorld is_scrollable_role).Forall GeomOK ∧
    collect_from_accessible cycWorld is_scrollable_role "a" "/r" [] [] 0 =
      collect_children cycWorld is_scrollable_role [("a", "/c"), ("a", "/r")]
        [] ["a:/r"] 1 := by
  refine ⟨claim_C6.1 cycWorld is_scrollable_role, ?_⟩
  have h := claim_C6.2 cycWorld is_scrollable_role "a" "/r" [] [] 0 Role.Frame
    [("a", "/c"), ("a", "/r")] (by decide) (by decide) (by decide) rfl
    (by decide) (Or.inr ⟨0, 0, 4000, 100, rfl, by decide⟩) rfl
  exact h

/-- C7 counterexample: for the alphabet `hjkl` and count 5 the label at
index 4 is `hh` — the first alphabet character doubled — not `hj`, the
concatenation of the first two alphabet characters. -/
theorem claim_C7_counterexample :
    (generate_hints 5 ['h', 'j', 'k', 'l'])[4]? = some ['h', 'h'] ∧
    (generate_hints 5 ['h', 'j', 'k', 'l'])[4]? ≠ some ['h', 'j'] :=
  ⟨by decide, by decide⟩

/-- C7 (amended): for an alphabet of k ≥ 2 distinct characters and count
greater than k, the first k labels are the singleton alphabet characters in
alphabet order, and the label at index k is the first alphabet character
concatenated with itself (the spec's own example: `hjkl`, count 5, gives
`h j k l hh`). -/
theorem claim_C7 (count : Nat) (c0 c1 : Char) (rest : List Char)
    (_hnd : (c0 :: c1 :: rest).Nodup)
    (hcount : (c0 :: c1 :: rest).length < count) :
    (generate_hints count (c0 :: c1 :: rest)).take (c0 :: c1 :: rest).length =
      (c0 :: c1 :: rest).map (fun c => [c]) ∧
    (generate_hints count (c0 :: c1 :: rest))[(c0 :: c1 :: rest).length]? =
      some [c0, c0] :=
  ⟨generate_hints_take_singletons count _ hcount,
   generate_hints_at_k count c0 c1 rest hcount⟩

theorem claim_C7_witness :
    (['h', 'j', 'k', 'l'] : List Char).Nodup ∧
    ((generate_hints 5 ['h', 'j', 'k', 'l']).take 4 =
        [['h'], ['j'], ['k'], ['l']] ∧
      (generate_hints 5 ['h', 'j', 'k', 'l'])[4]? = some ['h', 'h']) :=
  ⟨by decide, claim_C7 5 'h' 'j' ['k', 'l'] (by decide) (by decide)⟩

/-- C8 counterexample: the source predicate also accepts the `Filler`
role, which the spec's closed list omits. -/
theorem claim_C8_counterexample :
    is_scrollable_role Role.Filler = true ∧
    spec_scrollable_role Role.Filler = false :=
  ⟨by decide, by decide⟩

/-- C8 (amended): `is_scrollable_role` holds exactly on scroll panes,
viewports, panels, fillers, document frames, document web views,
applications, frames and scroll bars. -/
theorem claim_C8 (r : Role) :
    is_scrollable_role r = true ↔
      (r = Role.ScrollPane ∨ r = Role.Viewport ∨ r = Role.Panel ∨
        r = Role.Filler ∨ r = Role.DocumentFrame ∨ r = Role.DocumentWeb ∨
        r = Role.Application ∨ r = Role.Frame ∨ r = Role.ScrollBar) := by
  cases r <;> decide

/-- C9 counterexample: `assign_hints` with an empty alphabet does NOT
produce an empty hinted set — it falls back to the default alphabet and
labels the element `a`. -/
theorem claim_C9_counterexample :
    assign_hints [elA] [] = [{ hint := ['a'], element := elA }] ∧
    assign_hints [elA] [] ≠ [] :=
  ⟨by decide, by decide⟩

/-- C9 (amended): `generate_hints` with an empty alphabet returns the
empty list for every count, but `assign_hints` with an empty alphabet
substitutes `DEFAULT_HINT_CHARS`, so it behaves exactly as if called with
the default alphabet (and hence does produce hinted elements). -/
theorem claim_C9 :
    (∀ count : Nat, generate_hints count [] = []) ∧
    (∀ elements : List ClickableElement,
      assign_hints elements [] = assign_hints elements DEFAULT_HINT_CHARS) := by
  constructor
  · intro count
    cases count <;> rfl
  · intro elements
    rfl

/-- C10 counterexample: with one element and the empty alphabet (k = 0),
`assign_hints` returns one hinted element, not `min 1 (0 + 0² + 0³) = 0`
— the empty alphabet is replaced by the default one. -/
theorem claim_C10_counterexample :
    (assign_hints [elA] []).length = 1 ∧
    (assign_hints [elA] []).length ≠
      min ([elA] : List ClickableElement).length
        (([] : List Char).length + ([] : List Char).length ^ 2 +
          ([] : List Char).length ^ 3) :=
  ⟨by decide, by decide⟩

/-- C10 (amended): for every element list of length n and every NON-EMPTY
alphabet of k distinct characters, `assign_hints` returns exactly
`min n (k + k² + k³)` hinted elements, pairing the i-th element with the
i-th generated label in input order; elements beyond the label supply are
silently dropped. -/
theorem claim_C10 (els : List ClickableElement) (chars : List Char)
    (hne : chars ≠ []) (_hnd : chars.Nodup) :
    (assign_hints els chars).length =
      min els.length (chars.length + chars.length ^ 2 + chars.length ^ 3) ∧
    (∀ i : Nat, (assign_hints els chars)[i]? =
      (els[i]?).bind fun e => ((generate_hints els.length chars)[i]?).map
        fun h => { hint := h, element := e }) := by
  have hch : ¬(chars.isEmpty = true) := by
    simpa [List.isEmpty_iff] using hne
  constructor
  · rw [assign_hints]
    simp only [hch, Bool.false_eq_true, if_false]
    rw [List.length_map, List.length_zip, generate_hints_length]
    omega
  · intro i
    rw [assign_hints]
    simp only [hch, Bool.false_eq_true, if_false]
    rw [List.getElem?_map, zip_getElem?]
    rcases h1 : els[i]? with _ | e <;>
      rcases h2 : (generate_hints els.length chars)[i]? with _ | hh <;>
        simp [h1, h2]

theorem claim_C10_witness :
    (assign_hints [elA, elA] ['a']).length = min 2 (1 + 1 ^ 2 + 1 ^ 3) ∧
    (∀ i : Nat, (assign_hints [elA, elA] ['a'])[i]? =
      (([elA, elA] : List ClickableElement)[i]?).bind fun e =>
        ((generate_hints 2 ['a'])[i]?).map fun h => { hint := h, element := e }) :=
  claim_C10 [elA, elA] ['a'] (by decide) (by decide)
